import Mathlib

/-!
Verification of the chunking / retrieval / evaluation core of a RAG pipeline
(notebooks: semantic chunking, context-enriched retrieval, chunk-size selection).

Modelling conventions:
* Python strings are modelled as `String` or, where character-offset slicing
  matters, as `List Char`.
* Python / numpy floating point numbers are modelled exactly: every finite IEEE
  float is a rational number, so similarity series and parsed scores are `ℚ`;
  quantities whose computation involves a square root (vector norms, standard
  deviations) live in `ℝ`.
* Code that can raise a Python exception is modelled with `Except String`,
  the error string naming the exception.  Code with no raise path is total.
* Calls to the external OpenAI collaborator (get_embedding / create_embeddings /
  chat completions) are externalized: functions take the collaborator's output
  (an embedding vector, or the judge's raw text reply) as an argument.
-/

/-- The step of the loop `for i in range(0, len(text), n - overlap)` in
`chunk_text`, with stride `sPred + 1` (the stride is positive on this path).
At index `i` it appends the slice `text[i:i+n]` and advances by the stride. -/
def chunkGo (text : List Char) (n sPred : ℕ) (i : ℕ) : List (List Char) :=
  if _h : i < text.length then
    ((text.drop i).take n) :: chunkGo text n sPred (i + (sPred + 1))
  else []
  termination_by text.length - i
  decreasing_by omega

/-- Model of `chunk_text(text, n, overlap)` (identical in the context-enriched
notebook and the chunk-size selector notebook):

    chunks = []
    for i in range(0, len(text), n - overlap):
        chunks.append(text[i:i + n])
    return chunks

`n - overlap` is evaluated in ℤ as in Python.  `range` raises
`ValueError: range() arg 3 must not be zero` when the step is zero; with a
negative step and start 0 ≤ stop the range is empty, so the loop body never
runs and the empty list is returned. -/
def chunk_text (text : List Char) (n overlap : ℕ) : Except String (List (List Char)) :=
  let step : ℤ := (n : ℤ) - (overlap : ℤ)
  if step = 0 then .error "range() arg 3 must not be zero"
  else if step < 0 then .ok []
  else .ok (chunkGo text n (n - overlap - 1) 0)

/-- The loop of `split_into_chunks(sentences, breakpoints)`: for each
breakpoint `bp` it appends `". ".join(sentences[start:bp+1]) + "."` and sets
`start = bp + 1`; after the loop it appends `". ".join(sentences[start:])`.
The slice `sentences[start:bp+1]` is `(sentences.drop start).take (bp+1-start)`. -/
def splitChunksGo (sentences : List String) : ℕ → List ℕ → List String
  | start, [] => [String.intercalate ". " (sentences.drop start)]
  | start, bp :: rest =>
      (String.intercalate ". " ((sentences.drop start).take (bp + 1 - start)) ++ ".")
        :: splitChunksGo sentences (bp + 1) rest

/-- Model of `split_into_chunks(sentences, breakpoints)` from the semantic
chunking notebook. -/
def split_into_chunks (sentences : List String) (breakpoints : List ℕ) : List String :=
  splitChunksGo sentences 0 breakpoints

/-- The index slices taken by `split_into_chunks`, before the chunk strings are
assembled: slice `sentences[start:bp+1]` per breakpoint, then the final slice
`sentences[start:]`.  Generic in the element type. -/
def splitSlicesGo {α : Type} (sentences : List α) : ℕ → List ℕ → List (List α)
  | start, [] => [sentences.drop start]
  | start, bp :: rest =>
      ((sentences.drop start).take (bp + 1 - start)) :: splitSlicesGo sentences (bp + 1) rest

/-- The unit slices underlying `split_into_chunks`. -/
def splitSlices {α : Type} (sentences : List α) (breakpoints : List ℕ) : List (List α) :=
  splitSlicesGo sentences 0 breakpoints

/-- Assembling chunk strings from unit slices exactly as `split_into_chunks`
does: every chunk produced inside the loop is `". ".join(units) + "."`, and the
final chunk (after the loop) is `". ".join(units)` with no trailing period. -/
def renderChunks : List (List String) → List String
  | [] => []
  | [last] => [String.intercalate ". " last]
  | s :: rest => (String.intercalate ". " s ++ ".") :: renderChunks rest

/-- Model of `np.percentile(xs, q)` with the default linear interpolation:
sort the data ascending, take the (possibly fractional) rank
`q / 100 * (n - 1)`, and linearly interpolate between the two neighbouring
order statistics.  (numpy raises on an empty array; this model returns a junk
value there, and every theorem about it is stated for the inputs the notebooks
use.) -/
def percentile (xs : List ℚ) (q : ℚ) : ℚ :=
  let sorted := xs.insertionSort (· ≤ ·)
  let n := xs.length
  let rank : ℚ := q / 100 * ((n : ℚ) - 1)
  let i : ℕ := (Int.floor rank).toNat
  let frac : ℚ := rank - (i : ℚ)
  let lo := sorted.getD i 0
  let hi := sorted.getD (min (i + 1) (n - 1)) 0
  lo + frac * (hi - lo)

/-- Model of `np.mean`. -/
def np_mean (xs : List ℚ) : ℚ := xs.sum / (xs.length : ℚ)

/-- The population variance of the data: `np.std(xs)` is its square root
(numpy's default `ddof = 0`). -/
def np_varPop (xs : List ℚ) : ℚ :=
  ((xs.map (fun x => (x - np_mean xs) ^ 2)).sum) / (xs.length : ℚ)

/-- Model of `np.std(xs)`; the square root forces the value into `ℝ`. -/
noncomputable def np_std (xs : List ℚ) : ℝ := Real.sqrt ((np_varPop xs : ℚ) : ℝ)

/-- Model of `compute_breakpoints(similarities, method, threshold)` from the
semantic chunking notebook.  Each recognized method computes its
`threshold_value` and the function returns
`[i for i, sim in enumerate(similarities) if sim < threshold_value]`;
an unrecognized method raises `ValueError`.  The standard-deviation branch
compares against a real number (`mean - threshold * std`); the other two
branches stay in `ℚ`. -/
noncomputable def compute_breakpoints (similarities : List ℚ) (method : String)
    (threshold : ℚ) : Except String (List ℕ) :=
  if method = "percentile" then
    let threshold_value := percentile similarities threshold
    .ok ((List.range similarities.length).filter
      (fun i => decide (similarities.getD i 0 < threshold_value)))
  else if method = "standard_deviation" then
    let threshold_value : ℝ := ((np_mean similarities : ℚ) : ℝ) - (threshold : ℝ) * np_std similarities
    .ok ((List.range similarities.length).filter
      (fun i => decide (((similarities.getD i 0 : ℚ) : ℝ) < threshold_value)))
  else if method = "interquartile" then
    let q1 := percentile similarities 25
    let q3 := percentile similarities 75
    let threshold_value := q1 - 1.5 * (q3 - q1)
    .ok ((List.range similarities.length).filter
      (fun i => decide (similarities.getD i 0 < threshold_value)))
  else .error "Invalid method. Choose 'percentile', 'standard_deviation', or 'interquartile'."

/-- Value of a list of decimal digit characters read as a natural number. -/
def digitsVal (cs : List Char) : ℕ :=
  cs.foldl (fun acc c => acc * 10 + (c.toNat - '0'.toNat)) 0

/-- Model of Python's float constructor on the decimal strings the evaluator's
judge is instructed to emit: an optional sign followed by digits with an
optional decimal point ("1", "0.5", "1.", ".5", "+0.0", "-1"), at least one
digit overall, nothing else.  Exotic float syntax (exponents, inf, nan,
underscores) is outside this model; every string the claims mention is covered.
Returns `none` exactly when Python's `float()` raises `ValueError` on the
covered fragment. -/
def pyFloat (s : String) : Option ℚ :=
  let cs := s.data
  let signed : ℚ × List Char :=
    match cs with
    | '+' :: r => (1, r)
    | '-' :: r => (-1, r)
    | r => (1, r)
  let sign := signed.1
  let intD := signed.2.takeWhile Char.isDigit
  let rest := signed.2.dropWhile Char.isDigit
  match rest with
  | [] => if intD.isEmpty then none else some (sign * (digitsVal intD : ℚ))
  | '.' :: r =>
      let fracD := r.takeWhile Char.isDigit
      let tail := r.dropWhile Char.isDigit
      if tail.isEmpty then
        if intD.isEmpty && fracD.isEmpty then none
        else some (sign * ((digitsVal intD : ℚ) + (digitsVal fracD : ℚ) / 10 ^ fracD.length))
      else none
  | _ => none

/-- Model of Python's str.strip(): remove leading and trailing whitespace.
(String.trim is extensionally the same but is defined by well-founded recursion
on byte positions, which blocks kernel evaluation; this structural version
evaluates.) -/
def pyStrip (s : String) : String :=
  String.mk (((s.data.dropWhile Char.isWhitespace).reverse.dropWhile
    Char.isWhitespace).reverse)

/-- Warning printed by `evaluate_response` when the faithfulness score fails
to parse. -/
def faithWarning : String := "Warning: Could not parse faithfulness score, defaulting to 0"

/-- Warning printed by `evaluate_response` when the relevancy score fails to
parse. -/
def relWarning : String := "Warning: Could not parse relevancy score, defaulting to 0"

/-- Model of the parsing / soft-fail tail of `evaluate_response` from the
chunk-size selector notebook.  The two chat-completion calls are external
collaborators, so the function takes their raw text replies as inputs and
returns the two scores together with the warnings printed.  The notebook's
`try: score = float(reply.strip()) except ValueError: warn; score = 0.0`
becomes a match on `pyFloat` of the trimmed reply. -/
def evaluate_response (faithfulness_reply relevancy_reply : String) :
    (ℚ × ℚ) × List String :=
  let f : ℚ × List String :=
    match pyFloat (pyStrip faithfulness_reply) with
    | some v => (v, [])
    | none => (0, [faithWarning])
  let r : ℚ × List String :=
    match pyFloat (pyStrip relevancy_reply) with
    | some v => (v, [])
    | none => (0, [relWarning])
  ((f.1, r.1), f.2 ++ r.2)

/-- Model of `np.dot` on 1-d arrays: the sum of pointwise products. -/
noncomputable def np_dot (v1 v2 : List ℝ) : ℝ := (List.zipWith (· * ·) v1 v2).sum

/-- Model of `np.linalg.norm`: the square root of the sum of squares. -/
noncomputable def np_norm (v : List ℝ) : ℝ := Real.sqrt ((v.map (fun x => x ^ 2)).sum)

/-- Model of `cosine_similarity(vec1, vec2)` (identical in all three
notebooks): `np.dot(vec1, vec2) / (np.linalg.norm(vec1) * np.linalg.norm(vec2))`.
The Python code has no raise path: the division is performed unconditionally
(numpy turns a zero denominator into nan/inf plus a runtime warning rather
than an exception; in this real-number model division by zero yields 0). -/
noncomputable def cosine_similarity (vec1 vec2 : List ℝ) : ℝ :=
  np_dot vec1 vec2 / (np_norm vec1 * np_norm vec2)

/-- The ordering used to model `np.argsort(similarities)` on the index list:
ascending by similarity value, ties by ascending index.  A stable ascending
sort of distinct indices by their values is exactly the sort by this
(value, index) lexicographic order. -/
def argsortRel (sims : List ℝ) (i j : ℕ) : Prop :=
  sims.getD i 0 < sims.getD j 0 ∨ (sims.getD i 0 = sims.getD j 0 ∧ i ≤ j)

noncomputable instance (sims : List ℝ) : DecidableRel (argsortRel sims) := fun i j => by
  unfold argsortRel
  exact inferInstance

/-- Model of `np.argsort(sims)`: the indices `0 .. len(sims) - 1` sorted
ascending by value (stable, so ties keep ascending index order). -/
noncomputable def np_argsort (sims : List ℝ) : List ℕ :=
  (List.range sims.length).insertionSort (argsortRel sims)

/-- Model of the Python slice `l[-k:]` for a natural `k`: the last
`min k (len l)` elements, except that `l[-0:]` is the whole list. -/
def pySliceLast {α : Type} (k : ℕ) (l : List α) : List α :=
  if k = 0 then l else l.drop (l.length - k)

/-- Model of `semantic_search(query, text_chunks, chunk_embeddings, k)` from the
semantic chunking notebook, and of the identical
`retrieve_relevant_chunks(query, text_chunks, chunk_embeddings, k)` from the
chunk-size selector notebook.  The query string is embedded by the external
collaborator, so the model takes the query embedding directly:

    similarities = [cosine_similarity(query_embedding, emb) for emb in chunk_embeddings]
    top_indices = np.argsort(similarities)[-k:][::-1]
    return [text_chunks[i] for i in top_indices]
-/
noncomputable def semantic_search (query_embedding : List ℝ) (text_chunks : List String)
    (chunk_embeddings : List (List ℝ)) (k : ℕ) : List String :=
  let similarities := chunk_embeddings.map (fun emb => cosine_similarity query_embedding emb)
  let top_indices := (pySliceLast k (np_argsort similarities)).reverse
  top_indices.map (fun i => text_chunks.getD i "")

/-- Descending ranking order on chunk indices: higher similarity first, ties
broken by the HIGHER original index first.  Reversing a stable ascending
argsort produces exactly this order. -/
def descRelHigh (sims : List ℝ) (i j : ℕ) : Prop :=
  sims.getD j 0 < sims.getD i 0 ∨ (sims.getD i 0 = sims.getD j 0 ∧ j ≤ i)

noncomputable instance (sims : List ℝ) : DecidableRel (descRelHigh sims) := fun i j => by
  unfold descRelHigh
  exact inferInstance

/-- Descending ranking order on chunk indices as the claim states it: higher
similarity first, ties broken by the LOWER original index first
(stable-descending-sort semantics). -/
def descRelLow (sims : List ℝ) (i j : ℕ) : Prop :=
  sims.getD j 0 < sims.getD i 0 ∨ (sims.getD i 0 = sims.getD j 0 ∧ i ≤ j)

noncomputable instance (sims : List ℝ) : DecidableRel (descRelLow sims) := fun i j => by
  unfold descRelLow
  exact inferInstance

/-- Spec-side top-k: the first `k` chunk indices in descending-similarity
order with ties broken towards the higher original index. -/
noncomputable def topkIdxHigh (sims : List ℝ) (k : ℕ) : List ℕ :=
  ((List.range sims.length).insertionSort (descRelHigh sims)).take k

/-- Claim-side top-k: the first `k` chunk indices in descending-similarity
order with ties broken towards the lower original index, as claim C1 states. -/
noncomputable def topkIdxLow (sims : List ℝ) (k : ℕ) : List ℕ :=
  ((List.range sims.length).insertionSort (descRelLow sims)).take k

/-- The claimed behaviour of the retriever (claim C1): the k chunks of highest
cosine similarity to the query, descending, ties preferring the lower index. -/
noncomputable def topkChunksLow (query_embedding : List ℝ) (text_chunks : List String)
    (chunk_embeddings : List (List ℝ)) (k : ℕ) : List String :=
  (topkIdxLow (chunk_embeddings.map (fun emb => cosine_similarity query_embedding emb)) k).map
    (fun i => text_chunks.getD i "")

/-- Ordering on `(index, score)` pairs modelling the stable Python sort
`similarity_scores.sort(key=lambda x: x[1], reverse=True)`: descending by
score, ties keeping the original (ascending index) order. -/
def pairRel (a b : ℕ × ℝ) : Prop := b.2 < a.2 ∨ (a.2 = b.2 ∧ a.1 ≤ b.1)

noncomputable instance : DecidableRel pairRel := fun a b => by
  unfold pairRel
  exact inferInstance

/-- Model of `context_enriched_search(query, text_chunks, embeddings, k,
context_size)` from the context-enriched retrieval notebook.  The query is
embedded by the external collaborator, so the model takes the query embedding
directly.  The parameter `k` is accepted and never used, as in the source.

    similarity_scores = [(i, cosine_similarity(query_embedding, emb)) for ...]
    similarity_scores.sort(key=lambda x: x[1], reverse=True)
    top_index = similarity_scores[0][0]        # IndexError on empty input
    start = max(0, top_index - context_size)
    end = min(len(text_chunks), top_index + context_size + 1)
    return [text_chunks[i] for i in range(start, end)]

`max(0, top_index - context_size)` is natural subtraction `top_index - context_size`. -/
noncomputable def context_enriched_search (query_embedding : List ℝ) (text_chunks : List String)
    (embeddings : List (List ℝ)) (k context_size : ℕ) : Except String (List String) :=
  let similarity_scores :=
    embeddings.enum.map (fun p => (p.1, cosine_similarity query_embedding p.2))
  match similarity_scores.insertionSort pairRel with
  | [] => .error "list index out of range"
  | top :: _ =>
      let top_index := top.1
      let start := top_index - context_size
      let stop := min text_chunks.length (top_index + context_size + 1)
      .ok ((List.range' start (stop - start)).map (fun i => text_chunks.getD i ""))

/-- The index of the best-matching chunk as `context_enriched_search` computes
it: the first component of the head of the sorted score list (defaulting to 0
on empty input, where the source raises instead). -/
noncomputable def ces_top (query_embedding : List ℝ) (embeddings : List (List ℝ)) : ℕ :=
  (((embeddings.enum.map (fun p => (p.1, cosine_similarity query_embedding p.2))).insertionSort
    pairRel).headD (0, 0)).1

instance argsortRel_isTotal (sims : List ℝ) : IsTotal ℕ (argsortRel sims) := by
  constructor
  intro i j
  unfold argsortRel
  rcases lt_trichotomy (sims.getD i 0) (sims.getD j 0) with h | h | h
  · exact Or.inl (Or.inl h)
  · rcases Nat.le_total i j with hij | hij
    · exact Or.inl (Or.inr ⟨h, hij⟩)
    · exact Or.inr (Or.inr ⟨h.symm, hij⟩)
  · exact Or.inr (Or.inl h)

instance argsortRel_isTrans (sims : List ℝ) : IsTrans ℕ (argsortRel sims) := by
  constructor
  intro a b c hab hbc
  unfold argsortRel at *
  rcases hab with h1 | ⟨h1, h1'⟩ <;> rcases hbc with h2 | ⟨h2, h2'⟩
  · exact Or.inl (h1.trans h2)
  · exact Or.inl (h2 ▸ h1)
  · exact Or.inl (h1 ▸ h2)
  · exact Or.inr ⟨h1.trans h2, h1'.trans h2'⟩

instance argsortRel_isAntisymm (sims : List ℝ) : IsAntisymm ℕ (argsortRel sims) := by
  constructor
  intro a b hab hba
  unfold argsortRel at *
  rcases hab with h1 | ⟨h1, h1'⟩ <;> rcases hba with h2 | ⟨h2, h2'⟩
  · exact absurd h2 (lt_asymm h1)
  · exact absurd h1 (h2 ▸ lt_irrefl _)
  · exact absurd h2 (h1 ▸ lt_irrefl _)
  · exact Nat.le_antisymm h1' h2'

instance descRelHigh_isTotal (sims : List ℝ) : IsTotal ℕ (descRelHigh sims) := by
  constructor
  intro i j
  unfold descRelHigh
  rcases lt_trichotomy (sims.getD i 0) (sims.getD j 0) with h | h | h
  · exact Or.inr (Or.inl h)
  · rcases Nat.le_total i j with hij | hij
    · exact Or.inr (Or.inr ⟨h.symm, hij⟩)
    · exact Or.inl (Or.inr ⟨h, hij⟩)
  · exact Or.inl (Or.inl h)

instance descRelHigh_isTrans (sims : List ℝ) : IsTrans ℕ (descRelHigh sims) := by
  constructor
  intro a b c hab hbc
  unfold descRelHigh at *
  rcases hab with h1 | ⟨h1, h1'⟩ <;> rcases hbc with h2 | ⟨h2, h2'⟩
  · exact Or.inl (h2.trans h1)
  · exact Or.inl (h2 ▸ h1)
  · exact Or.inl (h1 ▸ h2)
  · exact Or.inr ⟨h1.trans h2, h2'.trans h1'⟩

instance descRelHigh_isAntisymm (sims : List ℝ) : IsAntisymm ℕ (descRelHigh sims) := by
  constructor
  intro a b hab hba
  unfold descRelHigh at *
  rcases hab with h1 | ⟨h1, h1'⟩ <;> rcases hba with h2 | ⟨h2, h2'⟩
  · exact absurd h2 (lt_asymm h1)
  · exact absurd h1 (h2 ▸ lt_irrefl _)
  · exact absurd h2 (h1 ▸ lt_irrefl _)
  · exact Nat.le_antisymm h2' h1'

instance pairRel_isTotal : IsTotal (ℕ × ℝ) pairRel := by
  constructor
  intro a b
  unfold pairRel
  rcases lt_trichotomy a.2 b.2 with h | h | h
  · exact Or.inr (Or.inl h)
  · rcases Nat.le_total a.1 b.1 with hij | hij
    · exact Or.inl (Or.inr ⟨h, hij⟩)
    · exact Or.inr (Or.inr ⟨h.symm, hij⟩)
  · exact Or.inl (Or.inl h)

instance pairRel_isTrans : IsTrans (ℕ × ℝ) pairRel := by
  constructor
  intro a b c hab hbc
  unfold pairRel at *
  rcases hab with h1 | ⟨h1, h1'⟩ <;> rcases hbc with h2 | ⟨h2, h2'⟩
  · exact Or.inl (h2.trans h1)
  · exact Or.inl (h2 ▸ h1)
  · exact Or.inl (h1 ▸ h2)
  · exact Or.inr ⟨h1.trans h2, h1'.trans h2'⟩

/-- The interquartile cutoff as the spec states it: Q1 - 1.5 * (Q3 - Q1) with
Q1 and Q3 the 25th and 75th percentiles. -/
def iqrCutoff (sims : List ℚ) : ℚ :=
  percentile sims 25 - 1.5 * (percentile sims 75 - percentile sims 25)

/-- The chunking loop started at index i yields one window per loop iteration:
window k starts at i + k * stride and spans up to n characters, and there are
ceil((len - i) / stride) iterations. -/
theorem chunkGo_eq (text : List Char) (n s : ℕ) (i : ℕ) :
    chunkGo text n s i =
      (List.range ((text.length - i + s) / (s + 1))).map
        (fun k => (text.drop (i + k * (s + 1))).take n) := by
  have main : ∀ d i, text.length - i ≤ d →
      chunkGo text n s i =
        (List.range ((text.length - i + s) / (s + 1))).map
          (fun k => (text.drop (i + k * (s + 1))).take n) := by
    intro d
    induction d with
    | zero =>
        intro i hle
        rw [chunkGo, dif_neg (by omega)]
        have h0 : text.length - i = 0 := by omega
        rw [h0, Nat.div_eq_of_lt (by omega)]
        simp
    | succ d ih =>
        intro i hle
        by_cases hi : i < text.length
        · rw [chunkGo, dif_pos hi, ih (i + (s + 1)) (by omega)]
          have hcount : (text.length - i + s) / (s + 1)
              = (text.length - (i + (s + 1)) + s) / (s + 1) + 1 := by
            rcases le_or_lt (text.length - i) (s + 1) with hd | hd
            · have h1 : text.length - i + s = (text.length - i - 1) + (s + 1) := by omega
              rw [h1, Nat.add_div_right _ (Nat.succ_pos s)]
              have h2 : text.length - (i + (s + 1)) = 0 := by omega
              rw [h2]
              have h3 : (text.length - i - 1) / (s + 1) = 0 := Nat.div_eq_of_lt (by omega)
              have h4 : (0 + s) / (s + 1) = 0 := Nat.div_eq_of_lt (by omega)
              rw [h3, h4]
            · have h1 : text.length - i + s
                  = (text.length - (i + (s + 1)) + s) + (s + 1) := by omega
              rw [h1, Nat.add_div_right _ (Nat.succ_pos s)]
          rw [hcount, List.range_succ_eq_map, List.map_cons, List.map_map]
          congr 1
          · simp
          · apply List.map_congr_left
            intro k _
            simp only [Function.comp_apply, Nat.succ_eq_add_one]
            have harith : i + (s + 1) + k * (s + 1) = i + (k + 1) * (s + 1) := by ring
            rw [harith]
        · rw [chunkGo, dif_neg hi]
          have h0 : text.length - i = 0 := by omega
          rw [h0, Nat.div_eq_of_lt (by omega)]
          simp
  exact main text.length i (Nat.sub_le _ _)

/-- Claim C4: with 0 ≤ overlap < n the fixed-window chunker returns, without
error, exactly ceil(len / (n - overlap)) chunks, chunk k starting at character
offset k * (n - overlap) and spanning up to n characters clipped at the end of
the text (the ceiling is written (len + stride - 1) / stride in ℕ). -/
theorem chunk_text_windows (text : List Char) (n overlap : ℕ) (h : overlap < n) :
    chunk_text text n overlap =
      .ok ((List.range ((text.length + (n - overlap) - 1) / (n - overlap))).map
        (fun k => (text.drop (k * (n - overlap))).take n)) := by
  unfold chunk_text
  rw [if_neg (by omega), if_neg (by omega)]
  rw [chunkGo_eq]
  have hs : n - overlap - 1 + 1 = n - overlap := by omega
  have hnum : text.length - 0 + (n - overlap - 1) = text.length + (n - overlap) - 1 := by omega
  simp only [hs, hnum, Nat.zero_add]

/-- Witness for C4: chunking "abc" with n = 2, overlap = 1 (stride 1). -/
theorem chunk_text_windows_witness :
    chunk_text ['a', 'b', 'c'] 2 1 =
      .ok ((List.range ((3 + (2 - 1) - 1) / (2 - 1))).map
        (fun k => ((['a', 'b', 'c'] : List Char).drop (k * (2 - 1))).take 2)) :=
  chunk_text_windows ['a', 'b', 'c'] 2 1 (by decide)

/-- Counterexample to claim C5 as stated: with overlap = 101 > n = 100 the
chunker does NOT fail with an error; the negative step makes Python's range
empty, so it silently returns an empty chunk list. -/
theorem chunk_text_overlap_gt_counterexample :
    chunk_text ['a'] 100 101 = Except.ok [] := rfl

/-- Claim C5 (amended): the chunker raises exactly when overlap = n (zero
step, Python ValueError); when overlap > n it returns an empty chunk list
without error; when overlap < n it never raises. -/
theorem chunk_text_invalid_config (text : List Char) (n overlap : ℕ) :
    ((∃ e, chunk_text text n overlap = .error e) ↔ overlap = n) ∧
    (n < overlap → chunk_text text n overlap = .ok []) := by
  unfold chunk_text
  constructor
  · constructor
    · rintro ⟨e, he⟩
      by_contra hne
      rw [if_neg (by omega)] at he
      split_ifs at he
    · intro heq
      exact ⟨_, by rw [if_pos (by omega)]⟩
  · intro hlt
    rw [if_neg (by omega), if_pos (by omega)]

/-- Witness for C5 (amended): n = 3, overlap = 5 returns ok []. -/
theorem chunk_text_invalid_config_witness :
    chunk_text ['x', 'y'] 3 5 = .ok [] :=
  (chunk_text_invalid_config ['x', 'y'] 3 5).2 (by decide)

/-- For a strictly increasing breakpoint list whose head is at least
start - 1, the slices taken by the chunking loop concatenate back to
exactly the suffix of the unit list the loop starts from. -/
theorem splitSlicesGo_join {α : Type} (sentences : List α) :
    ∀ (bps : List ℕ) (start : ℕ), bps.Pairwise (· < ·) →
      (∀ b ∈ bps, start ≤ b + 1) →
      (splitSlicesGo sentences start bps).flatten = sentences.drop start := by
  intro bps
  induction bps with
  | nil => intro start _ _; simp [splitSlicesGo]
  | cons bp rest ih =>
      intro start hpw hge
      rw [List.pairwise_cons] at hpw
      rw [splitSlicesGo, List.flatten_cons]
      rw [ih (bp + 1) hpw.2 (fun b hb => by have := hpw.1 b hb; omega)]
      have hst : start ≤ bp + 1 := hge bp (List.mem_cons_self bp rest)
      have hdd : sentences.drop (bp + 1)
          = (sentences.drop start).drop (bp + 1 - start) := by
        rw [List.drop_drop]
        congr 1
        omega
      rw [hdd, List.take_append_drop]

/-- The chunking loop always yields one chunk per breakpoint plus a final
chunk. -/
theorem splitSlicesGo_length {α : Type} (sentences : List α) :
    ∀ (bps : List ℕ) (start : ℕ),
      (splitSlicesGo sentences start bps).length = bps.length + 1 := by
  intro bps
  induction bps with
  | nil => intro start; rfl
  | cons bp rest ih => intro start; simp [splitSlicesGo, ih]

/-- The string chunks built by split_into_chunks are exactly the rendered
unit slices: ". ".join(units) + "." for each loop chunk, ". ".join(units)
for the final chunk. -/
theorem splitChunksGo_eq_render (sentences : List String) :
    ∀ (bps : List ℕ) (start : ℕ),
      splitChunksGo sentences start bps
        = renderChunks (splitSlicesGo sentences start bps) := by
  intro bps
  induction bps with
  | nil => intro start; rfl
  | cons bp rest ih =>
      intro start
      rw [splitChunksGo, splitSlicesGo, ih (bp + 1)]
      cases hrest : splitSlicesGo sentences (bp + 1) rest with
      | nil =>
          have := splitSlicesGo_length sentences rest (bp + 1)
          rw [hrest] at this
          simp at this
      | cons s rest' => rfl

/-- Claim C6: the semantic chunk assembly partitions the unit sequence
exactly.  For every valid breakpoint set (strictly increasing, in range) the
unit slices concatenate back to the full sentence list with no unit duplicated
or dropped, there is one chunk per breakpoint plus a final chunk, and the
chunk strings are the rendered slices.  Concretely: an empty breakpoint set
yields one chunk holding all units, breakpoints [1, 3] over 5 units yield
chunks covering units [0,1], [2,3], [4], and a breakpoint at the last valid
unit index yields an empty trailing chunk rendered as the empty string. -/
theorem split_into_chunks_partition (sentences : List String) (bps : List ℕ)
    (hinc : bps.Pairwise (· < ·)) (hmem : ∀ b ∈ bps, b < sentences.length) :
    (splitSlices sentences bps).flatten = sentences ∧
    (splitSlices sentences bps).length = bps.length + 1 ∧
    split_into_chunks sentences bps = renderChunks (splitSlices sentences bps) ∧
    splitSlices sentences [] = [sentences] ∧
    splitSlices (["u0", "u1", "u2", "u3", "u4"] : List String) [1, 3]
      = [["u0", "u1"], ["u2", "u3"], ["u4"]] ∧
    split_into_chunks ["s0", "s1", "s2", "s3", "s4"] [1, 3]
      = ["s0. s1.", "s2. s3.", "s4"] ∧
    split_into_chunks ["s0", "s1"] [] = ["s0. s1"] ∧
    split_into_chunks ["s0", "s1"] [1] = ["s0. s1.", ""] := by
  refine ⟨?_, ?_, ?_, ?_, ?_, ?_, ?_, ?_⟩
  · have := splitSlicesGo_join sentences bps 0 hinc (fun b _ => by omega)
    simpa [splitSlices] using this
  · exact splitSlicesGo_length sentences bps 0
  · exact splitChunksGo_eq_render sentences bps 0
  · rfl
  · rfl
  · rfl
  · rfl
  · rfl

/-- Witness for C6 at the 5-unit example with breakpoints [1, 3]. -/
theorem split_into_chunks_partition_witness :
    (splitSlices (["a", "b", "c", "d", "e"] : List String) [1, 3]).flatten
      = ["a", "b", "c", "d", "e"] :=
  (split_into_chunks_partition ["a", "b", "c", "d", "e"] [1, 3]
    (by decide) (by decide)).1

/-- Claim C7: the interquartile breakpoint method computes the cutoff
Q1 - 1.5 * (Q3 - Q1) from the 25th and 75th percentiles (linear
interpolation), reports a boundary exactly at every index whose similarity is
strictly below the cutoff, and its result does not depend on the threshold
argument. -/
theorem compute_breakpoints_interquartile_spec (sims : List ℚ) (t u : ℚ) :
    compute_breakpoints sims "interquartile" t
      = .ok ((List.range sims.length).filter
          (fun i => decide (sims.getD i 0 < iqrCutoff sims))) ∧
    (∀ i, i ∈ (List.range sims.length).filter
          (fun i => decide (sims.getD i 0 < iqrCutoff sims))
        ↔ (i < sims.length ∧ sims.getD i 0 < iqrCutoff sims)) ∧
    compute_breakpoints sims "interquartile" t
      = compute_breakpoints sims "interquartile" u := by
  refine ⟨rfl, ?_, rfl⟩
  intro i
  simp [List.mem_filter, List.mem_range]

/-- Claim C8: whenever compute_breakpoints returns a breakpoint list, the
list is strictly increasing and every index lies within [0, L-1] for a
similarity series of length L. -/
theorem compute_breakpoints_sorted_in_range (sims : List ℚ) (method : String)
    (t : ℚ) (l : List ℕ) (h : compute_breakpoints sims method t = .ok l) :
    l.Pairwise (· < ·) ∧ ∀ i ∈ l, i < sims.length := by
  unfold compute_breakpoints at h
  have hrange : ∀ (p : ℕ → Bool),
      ((List.range sims.length).filter p).Pairwise (· < ·) ∧
        ∀ i ∈ (List.range sims.length).filter p, i < sims.length := by
    intro p
    constructor
    · exact (List.pairwise_lt_range sims.length).sublist (List.filter_sublist _)
    · intro i hi
      exact List.mem_range.mp (List.mem_of_mem_filter hi)
  split_ifs at h <;> cases h <;> exact hrange _

/-- Witness for C8: the percentile method on the series [1, 2] with
threshold 0 returns the empty breakpoint list, which is trivially sorted and
in range. -/
theorem compute_breakpoints_sorted_in_range_witness :
    List.Pairwise (· < ·) ([] : List ℕ) ∧
      ∀ i ∈ ([] : List ℕ), i < ([1, 2] : List ℚ).length :=
  compute_breakpoints_sorted_in_range [1, 2] "percentile" 0 []
    (by norm_num [compute_breakpoints, percentile, List.range_succ])

/-- Claim C9: the evaluator fails soft.  For every pair of raw judge replies,
a reply whose trimmed text does not parse as a float yields the default score
0.0 for that criterion together with a warning; a parseable reply yields the
parsed score; and the function is total (the notebook's try/except catches
exactly the ValueError that float() raises, so a parse failure never escapes).
Concretely, the reply "mostly correct" yields score 0.0 and a warning rather
than a crash. -/
theorem evaluate_response_soft_fail (fRaw rRaw : String) :
    (pyFloat (pyStrip fRaw) = none →
      (evaluate_response fRaw rRaw).1.1 = 0 ∧
        faithWarning ∈ (evaluate_response fRaw rRaw).2) ∧
    (∀ v, pyFloat (pyStrip fRaw) = some v → (evaluate_response fRaw rRaw).1.1 = v) ∧
    (pyFloat (pyStrip rRaw) = none →
      (evaluate_response fRaw rRaw).1.2 = 0 ∧
        relWarning ∈ (evaluate_response fRaw rRaw).2) ∧
    (∀ v, pyFloat (pyStrip rRaw) = some v → (evaluate_response fRaw rRaw).1.2 = v) ∧
    evaluate_response "mostly correct" "1.0" = ((0, 1), [faithWarning]) := by
  refine ⟨?_, ?_, ?_, ?_, ?_⟩
  · intro hf
    unfold evaluate_response
    rw [hf]
    cases hr : pyFloat (pyStrip rRaw) <;> simp
  · intro v hf
    unfold evaluate_response
    rw [hf]
  · intro hr
    unfold evaluate_response
    rw [hr]
    cases hf : pyFloat (pyStrip fRaw) <;> simp
  · intro v hr
    unfold evaluate_response
    rw [hr]
  · simp +decide [evaluate_response, pyFloat, pyStrip, digitsVal, faithWarning] <;> norm_num

/-- Witness for C9: the unparseable reply "mostly correct" produces the
default faithfulness score 0 and a warning. -/
theorem evaluate_response_soft_fail_witness :
    (evaluate_response "mostly correct" "0.5").1.1 = 0 ∧
      faithWarning ∈ (evaluate_response "mostly correct" "0.5").2 :=
  (evaluate_response_soft_fail "mostly correct" "0.5").1 rfl

/-- Claim C10: the context-enriched retriever's result does not depend on its
k parameter; any two calls that differ only in k return identical results. -/
theorem context_enriched_search_ignores_k (query_embedding : List ℝ)
    (text_chunks : List String) (embeddings : List (List ℝ)) (k1 k2 c : ℕ) :
    context_enriched_search query_embedding text_chunks embeddings k1 c
      = context_enriched_search query_embedding text_chunks embeddings k2 c := rfl

/-- Counterexample to claim C3 as stated: at a zero-norm first argument the
code does not fail with a DegenerateVector error — no such error exists in the
source; the division is executed and a value is returned (0 in the
real-number model of the division by a zero denominator). -/
theorem cosine_similarity_degenerate_counterexample :
    np_norm [(0 : ℝ)] = 0 ∧ cosine_similarity [(0 : ℝ)] [1] = 0 := by
  constructor
  · simp [np_norm]
  · simp [cosine_similarity, np_dot]

/-- Claim C3 (amended): cosine_similarity always equals
dot(a,b) / (norm(a) * norm(b)); there is no zero-norm check and no
DegenerateVector error.  When either vector has zero norm the division is
performed anyway and a value is returned (numpy produces nan/inf with a
runtime warning, never an exception; in this real-number model the quotient
with zero denominator is 0). -/
theorem cosine_similarity_total (vec1 vec2 : List ℝ) :
    cosine_similarity vec1 vec2 = np_dot vec1 vec2 / (np_norm vec1 * np_norm vec2) ∧
    ((np_norm vec1 = 0 ∨ np_norm vec2 = 0) → cosine_similarity vec1 vec2 = 0) := by
  refine ⟨rfl, ?_⟩
  rintro (h | h) <;> simp [cosine_similarity, h]

/-- Witness for C3 (amended): zero norm on the second argument also yields
the value 0 rather than an error. -/
theorem cosine_similarity_total_witness :
    cosine_similarity [(1 : ℝ)] [0] = 0 :=
  (cosine_similarity_total [(1 : ℝ)] [0]).2 (Or.inr (by simp [np_norm]))

/-- Reversing the stable ascending argsort gives the indices sorted
descending by similarity with ties towards the higher index. -/
theorem np_argsort_reverse (sims : List ℝ) :
    (np_argsort sims).reverse
      = (List.range sims.length).insertionSort (descRelHigh sims) := by
  apply List.eq_of_perm_of_sorted (r := descRelHigh sims)
  · exact ((List.reverse_perm _).trans (List.perm_insertionSort _ _)).trans
      (List.perm_insertionSort _ _).symm
  · rw [List.Sorted, List.pairwise_reverse]
    apply (List.sorted_insertionSort (argsortRel sims) _).imp
    intro a b hab
    unfold argsortRel at hab
    unfold descRelHigh
    rcases hab with h | ⟨h, h'⟩
    · exact Or.inl h
    · exact Or.inr ⟨h.symm, h'⟩
  · exact List.sorted_insertionSort _ _

/-- Taking min k (length) elements is the same as taking k elements. -/
theorem take_min_length {α : Type} (l : List α) (k : ℕ) :
    l.take (min k l.length) = l.take k := by
  rcases le_total k l.length with h | h
  · rw [min_eq_left h]
  · rw [min_eq_right h, List.take_length, List.take_of_length_le h]

/-- For positive k, the reversed Python slice l[-k:] is the first k elements
of the reversed list. -/
theorem pySliceLast_reverse {α : Type} {k : ℕ} (hk : k ≠ 0) (l : List α) :
    (pySliceLast k l).reverse = l.reverse.take k := by
  unfold pySliceLast
  rw [if_neg hk, List.reverse_drop]
  have h : l.length - (l.length - k) = min k l.length := by omega
  rw [h, ← List.length_reverse l, take_min_length]

/-- Counterexample to claim C1 as stated: two chunks tied in cosine
similarity.  The code (reversed stable ascending argsort) returns the chunk
with the HIGHER original index, while the claimed lower-index tie-breaking
returns the other chunk. -/
theorem semantic_search_tie_counterexample :
    semantic_search [(1 : ℝ)] ["a", "b"] [[1], [1]] 1 = ["b"] ∧
    topkChunksLow [(1 : ℝ)] ["a", "b"] [[1], [1]] 1 = ["a"] := by
  constructor
  · simp [semantic_search, np_argsort, pySliceLast, argsortRel, List.range_succ,
      List.insertionSort, List.orderedInsert]
  · simp [topkChunksLow, topkIdxLow, descRelLow, List.range_succ,
      List.insertionSort, List.orderedInsert]

/-- Claim C1 (amended): for every query vector, chunk list, embedding list and
k ≥ 1, the retriever returns the chunks whose indices are the first k in
descending-cosine-similarity order with ties broken towards the HIGHER
original index (the reversal of the stable ascending argsort flips ties);
when k exceeds the chunk count all chunks are returned, without error; and
every selected index ranks at least as high as every unselected index. -/
theorem semantic_search_topk (q : List ℝ) (chunks : List String)
    (embs : List (List ℝ)) (k : ℕ) (hk : 0 < k) :
    semantic_search q chunks embs k
      = (topkIdxHigh (embs.map (cosine_similarity q)) k).map (fun i => chunks.getD i "") ∧
    (semantic_search q chunks embs k).length = min k embs.length ∧
    (∀ i ∈ topkIdxHigh (embs.map (cosine_similarity q)) k, ∀ j, j < embs.length →
      j ∉ topkIdxHigh (embs.map (cosine_similarity q)) k →
      descRelHigh (embs.map (cosine_similarity q)) i j) := by
  have hmain : semantic_search q chunks embs k
      = (topkIdxHigh (embs.map (cosine_similarity q)) k).map (fun i => chunks.getD i "") := by
    show ((pySliceLast k (np_argsort (embs.map (cosine_similarity q)))).reverse).map
        (fun i => chunks.getD i "") = _
    rw [pySliceLast_reverse (Nat.pos_iff_ne_zero.mp hk), np_argsort_reverse]
    rfl
  refine ⟨hmain, ?_, ?_⟩
  · rw [hmain]
    unfold topkIdxHigh
    rw [List.length_map, List.length_take, List.length_insertionSort, List.length_range,
      List.length_map]
  · intro i hi j hj hjn
    have hsort : ((List.range (embs.map (cosine_similarity q)).length).insertionSort
        (descRelHigh (embs.map (cosine_similarity q)))).Pairwise
        (descRelHigh (embs.map (cosine_similarity q))) :=
      List.sorted_insertionSort _ _
    have hsplit := List.take_append_drop k
      ((List.range (embs.map (cosine_similarity q)).length).insertionSort
        (descRelHigh (embs.map (cosine_similarity q))))
    rw [← hsplit] at hsort
    have hp := List.pairwise_append.mp hsort
    have hjfull : j ∈ (List.range (embs.map (cosine_similarity q)).length).insertionSort
        (descRelHigh (embs.map (cosine_similarity q))) := by
      rw [List.mem_insertionSort, List.mem_range, List.length_map]
      exact hj
    rw [← hsplit, List.mem_append] at hjfull
    rcases hjfull with hjt | hjd
    · exact absurd hjt hjn
    · exact hp.2.2 i hi j hjd

/-- Witness for C1 (amended) at a concrete input with k = 1. -/
theorem semantic_search_topk_witness :
    semantic_search [(1 : ℝ)] ["a"] [[1]] 1
      = (topkIdxHigh (([[1]] : List (List ℝ)).map (cosine_similarity [1])) 1).map
          (fun i => (["a"] : List String).getD i "") :=
  (semantic_search_topk [1] ["a"] [[1]] 1 (by decide)).1

/-- The scored pair list built by context_enriched_search, rewritten over
plain indices. -/
theorem scores_eq (q : List ℝ) (embs : List (List ℝ)) :
    embs.enum.map (fun p => (p.1, cosine_similarity q p.2))
      = (List.range embs.length).map
          (fun i => (i, cosine_similarity q (embs.getD i []))) := by
  apply List.ext_getElem
  · rw [List.length_map, List.enum_length, List.length_map, List.length_range]
  · intro i h1 h2
    rw [List.getElem_map, List.getElem_map, List.getElem_range]
    rw [List.getElem_enum]
    have hi : i < embs.length := by
      rw [List.length_map, List.enum_length] at h1
      exact h1
    rw [List.getD_eq_getElem embs [] hi]

/-- Mapping indexed lookup over a contiguous index range yields the
corresponding drop/take slice. -/
theorem getD_map_range' {α : Type} (l : List α) (d : α) :
    ∀ (len start : ℕ), start + len ≤ l.length →
      (List.range' start len).map (fun i => l.getD i d) = (l.drop start).take len := by
  intro len
  induction len with
  | zero => intro start _; simp
  | succ m ih =>
      intro start hle
      have hstart : start < l.length := by omega
      rw [List.range'_succ, List.map_cons, ih (start + 1) (by omega)]
      rw [List.drop_eq_getElem_cons hstart, List.take_succ_cons,
        List.getD_eq_getElem l d hstart]

/-- Claim C2: context-enriched retrieval finds the single best-matching chunk
index top (every chunk's similarity is at most top's, and among ties top is
the least index, by sort stability), and returns exactly the contiguous slice
of chunks from max(0, top - c) to min(N - 1, top + c) inclusive, in original
index order — expressed as drop/take, so there are no duplicates and no
out-of-range indices even when top is at a boundary. -/
theorem context_enriched_search_window (q : List ℝ) (chunks : List String)
    (embs : List (List ℝ)) (k c : ℕ) (h : embs ≠ []) :
    ces_top q embs < embs.length ∧
    (∀ j, j < embs.length →
      cosine_similarity q (embs.getD j [])
        ≤ cosine_similarity q (embs.getD (ces_top q embs) [])) ∧
    (∀ j, j < embs.length →
      cosine_similarity q (embs.getD j [])
        = cosine_similarity q (embs.getD (ces_top q embs) []) →
      ces_top q embs ≤ j) ∧
    context_enriched_search q chunks embs k c
      = .ok ((chunks.drop (ces_top q embs - c)).take
          (min chunks.length (ces_top q embs + c + 1) - (ces_top q embs - c))) := by
  have hlen : ((embs.enum.map (fun p => (p.1, cosine_similarity q p.2))).insertionSort
      pairRel).length = embs.length := by
    rw [List.length_insertionSort, List.length_map, List.enum_length]
  cases hs : (embs.enum.map (fun p => (p.1, cosine_similarity q p.2))).insertionSort pairRel with
  | nil =>
      exfalso
      rw [hs] at hlen
      exact h (List.length_eq_zero.mp hlen.symm)
  | cons top rest =>
      have hsorted : (top :: rest).Pairwise pairRel := by
        rw [← hs]
        exact List.sorted_insertionSort _ _
      have hmem_scores : ∀ x, x ∈ embs.enum.map (fun p => (p.1, cosine_similarity q p.2))
          ↔ x ∈ top :: rest := by
        intro x
        rw [← hs, List.mem_insertionSort]
      have htop_mem : top ∈ embs.enum.map (fun p => (p.1, cosine_similarity q p.2)) :=
        (hmem_scores top).mpr (List.mem_cons_self _ _)
      rw [scores_eq] at htop_mem
      rcases List.mem_map.mp htop_mem with ⟨i, hi, rfl⟩
      have hilt : i < embs.length := List.mem_range.mp hi
      have htop_def : ces_top q embs = i := by
        unfold ces_top
        rw [hs]
        rfl
      have hdom : ∀ j, j < embs.length →
          cosine_similarity q (embs.getD j []) ≤ cosine_similarity q (embs.getD i []) ∧
          (cosine_similarity q (embs.getD j [])
            = cosine_similarity q (embs.getD i []) → i ≤ j) := by
        intro j hj
        have hjmem : (j, cosine_similarity q (embs.getD j []))
            ∈ embs.enum.map (fun p => (p.1, cosine_similarity q p.2)) := by
          rw [scores_eq]
          exact List.mem_map.mpr ⟨j, List.mem_range.mpr hj, rfl⟩
        rcases List.mem_cons.mp ((hmem_scores _).mp hjmem) with hjtop | hjrest
        · have h1 : j = i := congrArg Prod.fst hjtop
          subst h1
          exact ⟨le_refl _, fun _ => le_refl _⟩
        · have hpair : pairRel (i, cosine_similarity q (embs.getD i []))
              (j, cosine_similarity q (embs.getD j [])) :=
            (List.pairwise_cons.mp hsorted).1 _ hjrest
          unfold pairRel at hpair
          rcases hpair with hlt | ⟨heq, hle⟩
          · exact ⟨le_of_lt hlt, fun he => absurd (he ▸ hlt) (lt_irrefl _)⟩
          · exact ⟨le_of_eq heq.symm, fun _ => hle⟩
      rw [htop_def]
      refine ⟨hilt, fun j hj => (hdom j hj).1, fun j hj he => (hdom j hj).2 he, ?_⟩
      show (match (embs.enum.map (fun p => (p.1, cosine_similarity q p.2))).insertionSort pairRel
          with
        | [] => Except.error "list index out of range"
        | top :: _ =>
            Except.ok ((List.range' (top.1 - c) (min chunks.length (top.1 + c + 1) - (top.1 - c))).map
              (fun i => chunks.getD i ""))) = _
      rw [hs]
      show Except.ok ((List.range' (i - c) (min chunks.length (i + c + 1) - (i - c))).map
          (fun x => chunks.getD x "")) = _
      rcases le_or_lt (min chunks.length (i + c + 1)) (i - c) with hle | hlt
      · have hz : min chunks.length (i + c + 1) - (i - c) = 0 := by omega
        rw [hz]
        simp
      · rw [getD_map_range' chunks "" _ (i - c) (by omega)]

/-- Witness for C2 at a concrete one-chunk input with context_size 2. -/
theorem context_enriched_search_window_witness :
    context_enriched_search [(1 : ℝ)] ["a", "b", "c"] [[1]] 1 2
      = .ok (((["a", "b", "c"] : List String).drop (ces_top [(1 : ℝ)] [[1]] - 2)).take
          (min (["a", "b", "c"] : List String).length (ces_top [(1 : ℝ)] [[1]] + 2 + 1)
            - (ces_top [(1 : ℝ)] [[1]] - 2))) :=
  (context_enriched_search_window [(1 : ℝ)] ["a", "b", "c"] [[1]] 1 2 (by simp)).2.2.2
